import Mathlib

/-!
Verification of the agent framework core (EventEmitter, MemoryManager,
ToolHandler, Agent from the framework module). Each JavaScript class is
shallowly embedded as a Lean structure with pure state-passing operations;
emitted events are recorded in an explicit log. Timestamps are modelled as
natural numbers supplied by the caller (`new Date()` becomes a `now`
parameter).
-/

namespace Spec2Proof

/-- JavaScript `cfg || d` for an optional numeric configuration field:
`undefined` and the falsy number `0` both fall back to the default. -/
def jsOrNat (cfg : Option Nat) (d : Nat) : Nat :=
  match cfg with
  | none => d
  | some n => if n = 0 then d else n

/-- JavaScript `Array.prototype.slice(start)` for an integer `start`:
a negative start counts from the end and clamps at 0; `-0` is `0`. -/
def jsSlice {α : Type} (l : List α) (start : Int) : List α :=
  if start < 0 then l.drop (((l.length : Int) + start).toNat)
  else l.drop (min start.toNat l.length)

/-- The last `n` elements of a list (all of it when it is shorter). -/
def lastN {α : Type} (n : Nat) (l : List α) : List α :=
  l.drop (l.length - n)

/-- JavaScript `s.startsWith(pre)`, on the character sequence (Lean's own
`String.startsWith` is byte-position based and does not kernel-reduce). -/
def jsStartsWith (s pre : String) : Bool := pre.data.isPrefixOf s.data

/-- JavaScript `s.endsWith(suf)`, on the character sequence. -/
def jsEndsWith (s suf : String) : Bool := suf.data.isSuffixOf s.data

/-- JavaScript `s.includes(c)` for a single character. -/
def jsIncludes (s : String) (c : Char) : Bool := s.data.contains c

/-- JavaScript `s.slice(0, -1)`: the string without its last character. -/
def jsDropLast (s : String) : String := String.mk s.data.dropLast

/-- Whether an `Except`-modelled promise settled fulfilled. -/
def exceptOk {α : Type} : Except String α → Bool
  | .ok _ => true
  | .error _ => false

/-- Lookup in a JavaScript-object-as-association-list (first match wins;
keys are unique by construction). `none` models `undefined`. -/
def lookupA {α : Type} : List (String × α) → String → Option α
  | [], _ => none
  | (k, v) :: rest, key => if k = key then some v else lookupA rest key

/-- JavaScript `obj[key] = value`: overwrite the existing binding in place,
or append a fresh one. -/
def setA {α : Type} : List (String × α) → String → α → List (String × α)
  | [], key, value => [(key, value)]
  | (k, v) :: rest, key, value =>
    if k = key then (key, value) :: rest else (k, v) :: setA rest key value

/-- JavaScript `delete obj[key]`. -/
def delA {α : Type} : List (String × α) → String → List (String × α)
  | [], _ => []
  | (k, v) :: rest, key => if k = key then rest else (k, v) :: delA rest key

/-! ## MemoryManager

The entry passed to `addToHistory` before the timestamp is assigned.
`timestamp` is `none` when the caller supplied no timestamp. The stored
timestamps are `Date` objects, which are always truthy, so
`entry.timestamp || new Date()` is `getD`. -/

structure MemEntry where
  input : String
  response : String
  timestamp : Option Nat
deriving DecidableEq, Repr

/-- A history entry as stored: the spread of the caller's entry with a
definitely-assigned timestamp. -/
structure StampedEntry where
  input : String
  response : String
  timestamp : Nat
deriving DecidableEq, Repr

/-- Events emitted through the MemoryManager's own EventEmitter, recorded
as a log. -/
inductive MemEvent (V : Type) where
  | historyUpdated (history : List StampedEntry)
  | memoryUpdated (key : String) (value : V) (oldValue : Option V)
  | memoryForgotten (key : String) (value : V)
  | memoryCleared
deriving DecidableEq, Repr

/-- State of a `MemoryManager` (class MemoryManager): bounded conversation
history, key/value store, configured bound, and the log of events it has
emitted. -/
structure MemoryManager (V : Type) where
  conversationHistory : List StampedEntry
  keyValueStore : List (String × V)
  maxHistoryLength : Nat
  eventsLog : List (MemEvent V)
deriving DecidableEq, Repr

/-- The constructor: `maxHistoryLength = config.maxHistoryLength || 100`. -/
def mkMemoryManager (V : Type) (cfgMax : Option Nat) : MemoryManager V :=
  ⟨[], [], jsOrNat cfgMax 100, []⟩

/-- The timestamp actually stored for an entry added at time `now`. -/
def stampEntry (e : MemEntry) (now : Nat) : StampedEntry :=
  ⟨e.input, e.response, e.timestamp.getD now⟩

/-- MemoryManager.addToHistory: push the stamped entry, shift the oldest
entry off when the length exceeds the bound, and emit `historyUpdated`
with the full current history. -/
def addToHistory {V : Type} (m : MemoryManager V) (e : MemEntry) (now : Nat) :
    MemoryManager V :=
  let pushed := m.conversationHistory ++ [stampEntry e now]
  let trimmed := if pushed.length > m.maxHistoryLength then pushed.drop 1 else pushed
  { m with
    conversationHistory := trimmed
    eventsLog := m.eventsLog ++ [.historyUpdated trimmed] }

/-- MemoryManager.getHistory: `conversationHistory.slice(-limit)` (the
default argument `limit = this.maxHistoryLength` is passed explicitly). -/
def getHistory {V : Type} (m : MemoryManager V) (limit : Nat) : List StampedEntry :=
  jsSlice m.conversationHistory (-(limit : Int))

/-- MemoryManager.getHistoryRange: `conversationHistory.slice(start, end)`
for non-negative indices. -/
def getHistoryRange {V : Type} (m : MemoryManager V) (startIndex endIndex : Nat) :
    List StampedEntry :=
  (m.conversationHistory.take endIndex).drop startIndex

/-- MemoryManager.remember: store the value and emit `memoryUpdated` only
when it differs (`!==`, modelled by decidable equality on `V`; a missing
key reads as `undefined`, i.e. `none`) from the previously stored value. -/
def remember {V : Type} [DecidableEq V] (m : MemoryManager V) (key : String) (value : V) :
    MemoryManager V :=
  let oldValue := lookupA m.keyValueStore key
  { m with
    keyValueStore := setA m.keyValueStore key value
    eventsLog :=
      if oldValue ≠ some value then
        m.eventsLog ++ [.memoryUpdated key value oldValue]
      else m.eventsLog }

/-- MemoryManager.recall. -/
def MemoryManager.recall {V : Type} (m : MemoryManager V) (key : String) : Option V :=
  lookupA m.keyValueStore key

/-- MemoryManager.forget: delete the key and emit `memoryForgotten` only
when it existed; the Bool is the return value. -/
def forget {V : Type} (m : MemoryManager V) (key : String) : MemoryManager V × Bool :=
  match lookupA m.keyValueStore key with
  | some value =>
    ({ m with
        keyValueStore := delA m.keyValueStore key
        eventsLog := m.eventsLog ++ [.memoryForgotten key value] }, true)
  | none => (m, false)

/-- MemoryManager.clear: wipe both stores and emit `memoryCleared`. -/
def clear {V : Type} (m : MemoryManager V) : MemoryManager V :=
  { m with
    conversationHistory := []
    keyValueStore := []
    eventsLog := m.eventsLog ++ [.memoryCleared] }

/-- A finite sequence of `addToHistory` calls, each with the clock value at
the time of the call. -/
def applyHistory {V : Type} (m : MemoryManager V) (es : List (MemEntry × Nat)) :
    MemoryManager V :=
  es.foldl (fun acc p => addToHistory acc p.1 p.2) m

/-! ## EventEmitter

Listeners are modelled by unique numeric identities (JavaScript function
identity, as used by `indexOf`); what a listener does when invoked is an
external behaviour map `beh : Nat → Except String Unit` (`ok` = returns,
`error` = throws). The only emitter-mutating listeners the class itself
creates are the `once` wrappers, so a listener is either `plain` or the
`onceWrapper` closure, which remembers the event name it was registered
under and, after the wrapped listener returns normally, calls
`off(eventName, onceWrapper)` — with `isWildcard` left at its default
`false`. -/

inductive LKind where
  | plain
  | onceWrapper (eventName : String)
deriving DecidableEq, Repr

structure Listener where
  lid : Nat
  kind : LKind
deriving DecidableEq, Repr

/-- One of the two listener stores (`this.events` / `this.wildcardEvents`):
a JavaScript object mapping event name to an array of listeners. -/
abbrev Store : Type := List (String × List Listener)

/-- `store[name]`, reading a missing key as the empty array. -/
def getLs (store : Store) (name : String) : List Listener :=
  (lookupA store name).getD []

/-- `if (!store[name]) store[name] = []; store[name].push(listener)`:
push onto the existing array, or create the key (keys stay unique). -/
def addListener : Store → String → Listener → Store
  | [], name, l => [(name, [l])]
  | (n, ls) :: rest, name, l =>
    if n = name then (n, ls ++ [l]) :: rest else (n, ls) :: addListener rest name l

/-- `indexOf` + `splice(index, 1)`: remove the first listener with the given
identity (no change when it is absent). -/
def removeFirst : List Listener → Nat → List Listener
  | [], _ => []
  | l :: rest, lid => if l.lid = lid then rest else l :: removeFirst rest lid

/-- `off` applied to one store: no-op when the store has no entry for the
name, else splice out the first occurrence. -/
def offStore : Store → String → Nat → Store
  | [], _, _ => []
  | (n, ls) :: rest, name, lid =>
    if n = name then (n, removeFirst ls lid) :: rest
    else (n, ls) :: offStore rest name lid

structure EventEmitter where
  events : Store
  wildcardEvents : Store
deriving DecidableEq

/-- The constructor: both stores empty. -/
def mkEventEmitter : EventEmitter := ⟨[], []⟩

/-- EventEmitter.on: a name containing `*` goes to the wildcard store,
any other name to the exact store. -/
def EventEmitter.on (s : EventEmitter) (name : String) (l : Listener) : EventEmitter :=
  if jsIncludes name '*' then
    { s with wildcardEvents := addListener s.wildcardEvents name l }
  else
    { s with events := addListener s.events name l }

/-- EventEmitter.off. -/
def EventEmitter.off (s : EventEmitter) (name : String) (lid : Nat)
    (isWildcard : Bool) : EventEmitter :=
  if isWildcard then { s with wildcardEvents := offStore s.wildcardEvents name lid }
  else { s with events := offStore s.events name lid }

/-- EventEmitter.once: register the `onceWrapper` closure via `on`. -/
def EventEmitter.once (s : EventEmitter) (name : String) (lid : Nat) : EventEmitter :=
  s.on name ⟨lid, .onceWrapper name⟩

/-- Invoking one listener inside synchronous `emit`: the surrounding
try/catch swallows a throw, so a throwing listener leaves the emitter
unchanged; a `onceWrapper` that returned normally then calls
`off(eventName, wrapper)` with `isWildcard = false`, i.e. against the
exact-name store whatever store it lives in. -/
def invokeSync (beh : Nat → Except String Unit) (s : EventEmitter) (l : Listener) :
    EventEmitter :=
  match beh l.lid with
  | .ok _ =>
    match l.kind with
    | .plain => s
    | .onceWrapper en => s.off en l.lid false
  | .error _ => s

/-- Does the wildcard key match the emitted name? The source checks
`wildcard.endsWith('*')` and then `eventName.startsWith(prefix)` with the
final `*` sliced off; the `else if (wildcard === '*')` branch is dead code
because `"*"` also ends with `*`. -/
def wildcardMatches (w : String) (name : String) : Bool :=
  jsEndsWith w "*" && jsStartsWith name (jsDropLast w)

/-- The wildcard listeners that an emit of `name` runs, in store order. -/
def matchingWildcard (ws : Store) (name : String) : List Listener :=
  ((ws.filter (fun e => wildcardMatches e.1 name)).map (fun e => e.2)).flatten

/-- EventEmitter.emit: run a snapshot (`[...listeners]`) of the exact-name
listeners, then every matching wildcard array. The wildcard store is
iterated live, but no listener the class creates ever mutates it (the
`once` wrapper's `off` always targets the exact store), so iterating the
entry list of the pre-emit state is faithful. Returns the final emitter
and the invoked listener identities in invocation order. -/
def EventEmitter.emit (beh : Nat → Except String Unit) (s : EventEmitter)
    (name : String) : EventEmitter × List Nat :=
  let snapshot := getLs s.events name
  let p1 := snapshot.foldl
    (fun (p : EventEmitter × List Nat) l => (invokeSync beh p.1 l, p.2 ++ [l.lid]))
    (s, [])
  (matchingWildcard s.wildcardEvents name).foldl
    (fun (p : EventEmitter × List Nat) l => (invokeSync beh p.1 l, p.2 ++ [l.lid]))
    p1

/-- The listener set `emitAsync` schedules: the exact-name array followed by
every matching wildcard array, exactly the set synchronous `emit` runs. -/
def scheduledListeners (s : EventEmitter) (name : String) : List Listener :=
  getLs s.events name ++ matchingWildcard s.wildcardEvents name

/-- `Promise.all` over the already-scheduled listener promises: it fulfils
with the array of results only when every promise fulfils, and rejects
with the first rejection (the listeners settle synchronously in
scheduling order, so the first rejection in time is the first in the
list). All promises were scheduled before `Promise.all` is applied, so
every listener runs to settlement regardless. -/
def promiseAll : List (Except String Unit) → Except String (List Unit)
  | [] => .ok []
  | .ok u :: rest => (promiseAll rest).map (fun us => u :: us)
  | .error e :: _ => .error e

/-- EventEmitter.emitAsync: schedule every exact-name then matching
wildcard listener as `Promise.resolve().then(() => listener(data))`, and
return `Promise.all` of them. Each scheduled callback runs exactly as in
synchronous `emit` (a `once` wrapper unsubscribes after a normal return).
Returns the final emitter, the invoked identities, and the settled value
of the returned promise. -/
def EventEmitter.emitAsync (beh : Nat → Except String Unit) (s : EventEmitter)
    (name : String) : EventEmitter × List Nat × Except String (List Unit) :=
  let ls := scheduledListeners s name
  let s1 := ls.foldl (fun acc l => invokeSync beh acc l) s
  (s1, ls.map (fun l => l.lid), promiseAll (ls.map (fun l => beh l.lid)))

/-! ## ToolHandler -/

/-- class ToolHandler: retry configuration. The constructor applies
`config.retryAttempts || 3` and `config.retryDelay || 1000`. -/
structure ToolHandler where
  retryAttempts : Nat
  retryDelay : Nat
deriving DecidableEq, Repr

def mkToolHandler (cfgAttempts cfgDelay : Option Nat) : ToolHandler :=
  ⟨jsOrNat cfgAttempts 3, jsOrNat cfgDelay 1000⟩

/-- A registered tool object from the tools dictionary. `call` is the
tool's executable, applied to the call's arguments and, because a stateful
JavaScript function may behave differently on successive invocations, to
the attempt number; `none` models a missing or non-function `call`
property (`typeof toolObject.call !== 'function'`). Arguments, results and
error messages are strings. -/
structure Tool where
  call : Option (String → Nat → Except String String)

instance exceptDecEq {ε α : Type} [DecidableEq ε] [DecidableEq α] :
    DecidableEq (Except ε α)
  | .error a, .error b => decidable_of_iff (a = b) (by simp)
  | .error _, .ok _ => isFalse (by simp)
  | .ok _, .error _ => isFalse (by simp)
  | .ok a, .ok b => decidable_of_iff (a = b) (by simp)

/-- What one `_executeWithRetry` run did: its outcome, how many times it
invoked the tool function, and the waits (`retryDelay * attempt`)
scheduled between consecutive attempts, in order. -/
structure RetryTrace where
  result : Except String String
  invocations : Nat
  delays : List Nat
deriving DecidableEq, Repr

/-- ToolHandler._executeWithRetry: call the tool function; on a throw,
retry after `retryDelay * attempt` while `attempt < retryAttempts`, else
re-raise the last error. -/
def executeWithRetry (th : ToolHandler) (fn : Nat → Except String String)
    (attempt : Nat) : RetryTrace :=
  match fn attempt with
  | .ok v => ⟨.ok v, 1, []⟩
  | .error e =>
    if _h : attempt < th.retryAttempts then
      let t := executeWithRetry th fn (attempt + 1)
      ⟨t.result, t.invocations + 1, th.retryDelay * attempt :: t.delays⟩
    else
      ⟨.error e, 1, []⟩
termination_by th.retryAttempts - attempt

/-- The `functionCall` payload of a model part: `{name, args}`. -/
structure FuncCall where
  name : String
  args : String
deriving DecidableEq, Repr

/-- One element of the array `handleToolCalls` receives: an object with a
`function` property. -/
structure ToolCall where
  function : FuncCall
deriving DecidableEq, Repr

/-- One element of the results array: `{toolName, result}` on success,
`{toolName, error}` on failure (the absent field is `none`). -/
structure ToolResultEntry where
  toolName : String
  result : Option String
  error : Option String
deriving DecidableEq, Repr

/-- The message pushed for a missing or non-callable tool (quotes around
the name elided). -/
def notCallableMsg (toolName : String) : String :=
  "Tool " ++ toolName ++ " not found or is not callable."

/-- Whether the registry holds a tool of that name with a function-valued
`call`. -/
def toolIsCallable (tools : List (String × Tool)) (name : String) : Bool :=
  match lookupA tools name with
  | some t => t.call.isSome
  | none => false

/-- The body of `handleToolCalls`'s loop for one call: look the tool up,
record an error entry when it is absent or not callable, otherwise run it
through `_executeWithRetry` starting at attempt 1 and record the result or
the error that survived the retries. -/
def processCall (th : ToolHandler) (tools : List (String × Tool)) (c : ToolCall) :
    ToolResultEntry :=
  match lookupA tools c.function.name with
  | none => ⟨c.function.name, none, some (notCallableMsg c.function.name)⟩
  | some tool =>
    match tool.call with
    | none => ⟨c.function.name, none, some (notCallableMsg c.function.name)⟩
    | some callFn =>
      match (executeWithRetry th (callFn c.function.args) 1).result with
      | .ok v => ⟨c.function.name, some v, none⟩
      | .error e => ⟨c.function.name, none, some e⟩

/-- ToolHandler.handleToolCalls: process every call in order, pushing one
entry per call; an error entry never aborts the rest of the batch
(`continue` / per-call try-catch). -/
def handleToolCalls (th : ToolHandler) (toolCalls : List ToolCall)
    (tools : List (String × Tool)) : List ToolResultEntry :=
  match toolCalls with
  | [] => []
  | c :: rest => processCall th tools c :: handleToolCalls th rest tools

/-- Concrete tool callable that throws on every invocation. -/
def alwaysFailCall : String → Nat → Except String String :=
  fun _ _ => .error "always"

/-- Concrete registry holding the always-failing tool under "t". -/
def failRegistry : List (String × Tool) := [("t", ⟨some alwaysFailCall⟩)]

/-- Every listener identity registered anywhere in a store. -/
def storeLids (st : Store) : List Nat :=
  (st.map (fun e => e.2.map (fun l => l.lid))).flatten

/-- Concrete behaviour: every listener returns normally. -/
def behAllOk : Nat → Except String Unit := fun _ => .ok ()

/-- Concrete behaviour: listener 0 throws/rejects, everyone else returns. -/
def behFailZero : Nat → Except String Unit :=
  fun lid => if lid = 0 then .error "boom" else .ok ()

/-- Concrete emitter: two plain listeners (ids 0 and 1) on the exact name
"evt". -/
def twoListenerEmitter : EventEmitter :=
  (mkEventEmitter.on "evt" ⟨0, .plain⟩).on "evt" ⟨1, .plain⟩

/-- Concrete emitter: listener 0 registered via `once` under the wildcard
name "mem*". -/
def onceWildcardEmitter : EventEmitter :=
  EventEmitter.once mkEventEmitter "mem*" 0

/-! ## Agent

The language-model client is a parameter `provider : Nat → LLMRequest →
Except String LLMResponse`, applied to the number of calls made so far in
this `run` and the request; `run` records every request it sends in
`calls`. The generation configuration merged into the request
(temperature, maxOutputTokens, provider-specific overrides) carries no
information the claims mention and is elided from `LLMRequest`. The
default `inputFormatter` and `responseProcessor` from the constructor are
embedded; event payloads beyond what the claims mention are elided. -/

/-- The `functionResponse` part payload: `{name, response: {result: X}}`,
with the single `result` field of the wrapper held directly (`none` for
`undefined`). -/
structure FuncResponse where
  name : String
  response : Option String
deriving DecidableEq, Repr

/-- One element of `content.parts`: a part may carry a `text`, a
`functionCall` and/or a `functionResponse` property; absent properties are
`none`. -/
structure Part where
  text : Option String
  functionCall : Option FuncCall
  functionResponse : Option FuncResponse
deriving DecidableEq, Repr

def textPart (s : String) : Part := ⟨some s, none, none⟩

def functionCallPart (fc : FuncCall) : Part := ⟨none, some fc, none⟩

def functionResponsePart (fr : FuncResponse) : Part := ⟨none, none, some fr⟩

/-- A `{role, parts}` message. -/
structure Content where
  role : String
  parts : List Part
deriving DecidableEq, Repr

/-- A model response; each candidate is represented by its `content` (the
only field the code reads). A missing `candidates` array behaves like an
empty one in every place the code reads it through optional chaining. -/
structure LLMResponse where
  candidates : List Content
deriving DecidableEq, Repr

/-- The payload handed to `llmProvider.generateContent`; `tools` is `none`
when the agent has no tool schemas (the field is omitted entirely), and
the schema list is represented by opaque schema names. -/
structure LLMRequest where
  contents : List Content
  systemInstruction : String
  tools : Option (List String)
deriving DecidableEq, Repr

/-- JavaScript truthiness of a possibly-absent string (`p.text` in the
filter of the default response processor: absent or empty is falsy). -/
def jsTruthyStrOpt : Option String → Bool
  | some s => !(s == "")
  | none => false

/-- JavaScript `a || b` on possibly-absent strings
(`result.result || result.error`). -/
def jsOrStr (a b : Option String) : Option String :=
  match a with
  | some s => if s == "" then b else some s
  | none => b

/-- The default `inputFormatter`: one user message wrapping the input. -/
def defaultInputFormatter (input : String) : List Content :=
  [⟨"user", [textPart input]⟩]

/-- The default `responseProcessor`: concatenate the truthy `text` fields
of the first candidate's parts (`textParts || ''` adds nothing: the join
of no parts is already the empty string). -/
def defaultResponseProcessor (r : LLMResponse) : String :=
  match r.candidates.head? with
  | some c =>
    String.join ((c.parts.filter (fun p => jsTruthyStrOpt p.text)).map
      (fun p => p.text.getD ""))
  | none => ""

/-- `llmResponse?.candidates?.[0]?.content?.parts?.filter(p => p.functionCall)`,
with every optional-chain miss collapsing to the empty list (the code only
asks whether the result is a nonempty array). -/
def toolCallsPartsOf (r : LLMResponse) : List Part :=
  match r.candidates.head? with
  | some c => c.parts.filter (fun p => p.functionCall.isSome)
  | none => []

/-- Events the Agent emits on its own emitter, recorded as a log (payload
fields beyond the claims' concern elided). -/
inductive AgentEvent where
  | statusChanged (agent : String) (oldStatus newStatus : String)
  | runStarted (agent : String) (input : String)
  | inputFormatted (agent : String)
  | llmResponseReceived (agent : String)
  | toolCallsDetected (agent : String)
  | toolCallsHandled (agent : String)
  | runCompleted (agent : String) (input response : String)
  | runError (agent : String) (input : String) (error : String)
deriving DecidableEq, Repr

/-- The Agent's state: identity and prompt material, tool registry and
derived schema list, its ToolHandler and MemoryManager, the mutable
status, and the log of events emitted on its emitter. -/
structure AgentState where
  id : String
  role : String
  goals : List String
  tools : List (String × Tool)
  toolSchemas : List String
  toolHandler : ToolHandler
  memory : MemoryManager String
  status : String
  eventsLog : List AgentEvent

/-- Agent.setStatus: record the new status and emit `statusChanged`. -/
def setStatus (a : AgentState) (newStatus : String) : AgentState :=
  { a with
    status := newStatus
    eventsLog := a.eventsLog ++ [.statusChanged a.id a.status newStatus] }

/-- Emit one event on the agent's emitter. -/
def emitA (a : AgentState) (ev : AgentEvent) : AgentState :=
  { a with eventsLog := a.eventsLog ++ [ev] }

/-- The system instruction: the role, extended with the numbered goal list
when there is at least one goal. -/
def systemInstructionOf (a : AgentState) : String :=
  if a.goals.length > 0 then
    a.role ++ "\n\nYour specific goals for this task are:\n" ++
      String.intercalate "\n"
        (a.goals.enum.map (fun p => toString (p.1 + 1) ++ ". " ++ p.2))
  else a.role

/-- The `tools` field of a request: omitted unless the agent has schemas. -/
def reqTools (a : AgentState) : Option (List String) :=
  if a.toolSchemas.length > 0 then some a.toolSchemas else none

/-- The first `generateContent` payload of a `run`. -/
def firstRequest (a : AgentState) (input : String) : LLMRequest :=
  ⟨defaultInputFormatter input, systemInstructionOf a, reqTools a⟩

/-- The tool results for a response's function-call parts:
`toolCallsParts.map(part => ({function: part.functionCall}))` handed to
`handleToolCalls` with the agent's tool registry. -/
def toolResultsOf (a : AgentState) (r1 : LLMResponse) : List ToolResultEntry :=
  handleToolCalls a.toolHandler
    (((toolCallsPartsOf r1).filterMap (fun p => p.functionCall)).map
      (fun fc => ⟨fc⟩))
    a.tools

/-- The parts of the `function` turn: one `functionResponse` per tool
result, with `response.result = result.result || result.error`. -/
def functionResponseParts (toolResults : List ToolResultEntry) : List Part :=
  toolResults.map (fun r => functionResponsePart ⟨r.toolName, jsOrStr r.result r.error⟩)

/-- The second `generateContent` payload: the original messages, the
model's tool-call turn, and the function-response turn with each tool's
result or error. -/
def secondRequest (a : AgentState) (input : String) (r1 : LLMResponse) : LLMRequest :=
  ⟨defaultInputFormatter input ++
    [⟨"model", toolCallsPartsOf r1⟩,
     ⟨"function", functionResponseParts (toolResultsOf a r1)⟩],
   systemInstructionOf a, reqTools a⟩

/-- The outcome of one `Agent.run`: the returned value or re-raised error,
the final agent state, and the requests sent to the model client in
order. -/
structure RunResult where
  result : Except String String
  agent : AgentState
  calls : List LLMRequest

/-- Agent.run. The null-provider guard cannot fire (the provider is a
total parameter); the context merge touches only elided event payloads.
Set status working, emit `runStarted` and `inputFormatted`, send the first
request; on a throw anywhere in the try block set status error, emit
`runError` and re-raise. With function-call parts in the first response:
emit `toolCallsDetected`, run the batch through the ToolHandler, emit
`toolCallsHandled`, send the second request, process its response, append
to history, set status idle, emit `runCompleted`, return. With none: the
same tail on the first response. -/
def Agent.run (provider : Nat → LLMRequest → Except String LLMResponse)
    (a0 : AgentState) (input : String) (now : Nat) : RunResult :=
  let a1 := emitA (setStatus a0 "working") (.runStarted a0.id input)
  let a2 := emitA a1 (.inputFormatted a0.id)
  let req1 := firstRequest a0 input
  match provider 0 req1 with
  | .error e =>
    ⟨.error e, emitA (setStatus a2 "error") (.runError a0.id input e), [req1]⟩
  | .ok r1 =>
    let a3 := emitA a2 (.llmResponseReceived a0.id)
    if (toolCallsPartsOf r1).length > 0 then
      let a4 := emitA (emitA a3 (.toolCallsDetected a0.id)) (.toolCallsHandled a0.id)
      let req2 := secondRequest a0 input r1
      match provider 1 req2 with
      | .error e =>
        ⟨.error e, emitA (setStatus a4 "error") (.runError a0.id input e),
          [req1, req2]⟩
      | .ok r2 =>
        let fin := defaultResponseProcessor r2
        let a5 := { a4 with memory := addToHistory a4.memory ⟨input, fin, some now⟩ now }
        ⟨.ok fin, emitA (setStatus a5 "idle") (.runCompleted a0.id input fin),
          [req1, req2]⟩
    else
      let fin := defaultResponseProcessor r1
      let a4 := { a3 with memory := addToHistory a3.memory ⟨input, fin, some now⟩ now }
      ⟨.ok fin, emitA (setStatus a4 "idle") (.runCompleted a0.id input fin), [req1]⟩

/-- Concrete response carrying only text. -/
def respText : LLMResponse := ⟨[⟨"model", [textPart "hi"]⟩]⟩

/-- Concrete response whose first candidate carries one function call. -/
def respToolCall : LLMResponse := ⟨[⟨"model", [functionCallPart ⟨"t2", "xargs"⟩]⟩]⟩

/-- Concrete final response after the tool round trip. -/
def respFinal : LLMResponse := ⟨[⟨"model", [textPart "final"]⟩]⟩

/-- Concrete provider answering every request with the text response. -/
def providerText : Nat → LLMRequest → Except String LLMResponse :=
  fun _ _ => .ok respText

/-- Concrete provider answering the first call with the tool-call response
and the second with the final text. -/
def providerTwo : Nat → LLMRequest → Except String LLMResponse :=
  fun i _ => if i = 0 then .ok respToolCall else .ok respFinal

/-- Concrete tool that succeeds, echoing its arguments. -/
def okTool : Tool := ⟨some (fun args _ => .ok (String.append "ran:" args))⟩

/-- Concrete toolless agent. -/
def agentW : AgentState :=
  ⟨"a1", "You are a helper.", [], [], [], mkToolHandler none none,
    mkMemoryManager String none, "idle", []⟩

/-- Concrete agent owning the tool "t2". -/
def agentTools : AgentState :=
  ⟨"a2", "Role.", [], [("t2", okTool)], ["schema-t2"], mkToolHandler none none,
    mkMemoryManager String none, "idle", []⟩

/-! ### MemoryManager lemmas -/

theorem length_lastN {α : Type} (n : Nat) (l : List α) : (lastN n l).length ≤ n := by
  simp only [lastN, List.length_drop]
  omega

theorem lastN_of_length_le {α : Type} {n : Nat} {l : List α} (h : l.length ≤ n) :
    lastN n l = l := by
  simp only [lastN, Nat.sub_eq_zero_of_le h, List.drop_zero]

theorem lastN_append_lastN {α : Type} (n : Nat) (xs ys : List α) :
    lastN n (lastN n xs ++ ys) = lastN n (xs ++ ys) := by
  simp only [lastN, List.length_append, List.length_drop]
  rw [List.drop_append_eq_append_drop, List.drop_append_eq_append_drop,
    List.drop_drop, List.length_drop]
  congr 2 <;> omega

theorem addToHistory_conversationHistory {V : Type} (m : MemoryManager V)
    (e : MemEntry) (now : Nat) (h : m.conversationHistory.length ≤ m.maxHistoryLength) :
    (addToHistory m e now).conversationHistory =
      lastN m.maxHistoryLength (m.conversationHistory ++ [stampEntry e now]) := by
  simp only [addToHistory, lastN, List.length_append, List.length_cons,
    List.length_nil]
  by_cases hgt : m.conversationHistory.length + (0 + 1) > m.maxHistoryLength
  · have hlen : m.conversationHistory.length = m.maxHistoryLength := by omega
    simp only [if_pos hgt]
    congr 1
    omega
  · simp only [if_neg hgt]
    have : m.conversationHistory.length + (0 + 1) - m.maxHistoryLength = 0 := by omega
    rw [this, List.drop_zero]

theorem addToHistory_maxHistoryLength {V : Type} (m : MemoryManager V)
    (e : MemEntry) (now : Nat) :
    (addToHistory m e now).maxHistoryLength = m.maxHistoryLength := rfl

theorem applyHistory_conversationHistory {V : Type} (es : List (MemEntry × Nat))
    (m : MemoryManager V) (h : m.conversationHistory.length ≤ m.maxHistoryLength) :
    (applyHistory m es).conversationHistory =
      lastN m.maxHistoryLength
        (m.conversationHistory ++ es.map (fun p => stampEntry p.1 p.2)) ∧
    (applyHistory m es).maxHistoryLength = m.maxHistoryLength := by
  induction es generalizing m with
  | nil =>
    simpa [applyHistory] using (lastN_of_length_le h).symm
  | cons p rest ih =>
    have hstep := addToHistory_conversationHistory m p.1 p.2 h
    have hlen : (addToHistory m p.1 p.2).conversationHistory.length ≤
        (addToHistory m p.1 p.2).maxHistoryLength := by
      rw [hstep, addToHistory_maxHistoryLength]
      exact length_lastN _ _
    have ihr := ih (addToHistory m p.1 p.2) hlen
    constructor
    · rw [show applyHistory m (p :: rest) = applyHistory (addToHistory m p.1 p.2) rest
        from rfl, ihr.1, addToHistory_maxHistoryLength, hstep, lastN_append_lastN]
      simp
    · rw [show applyHistory m (p :: rest) = applyHistory (addToHistory m p.1 p.2) rest
        from rfl, ihr.2, addToHistory_maxHistoryLength]

theorem lookupA_setA_self {V : Type} (kv : List (String × V)) (key : String) (value : V) :
    lookupA (setA kv key value) key = some value := by
  induction kv with
  | nil => simp [setA, lookupA]
  | cons p rest ih =>
    by_cases h : p.1 = key
    · simp [setA, h, lookupA]
    · simp [setA, h, lookupA, ih]

/-! ### Claim theorems for the MemoryManager -/

/-- C2: for every configured bound and every finite sequence of
`addToHistory` calls, after each call the history length is at most the
bound `maxHistoryLength` (`config.maxHistoryLength || 100`), and the
retained entries are exactly the most recently added entries, stamped, in
insertion order (the suffix of length `maxHistoryLength`). Every prefix
`es.take k` is the state after the k-th call. -/
theorem memory_history_bound (V : Type) (cfgMax : Option Nat)
    (es : List (MemEntry × Nat)) :
    (∀ k : Nat,
      (applyHistory (mkMemoryManager V cfgMax) (es.take k)).conversationHistory.length
        ≤ jsOrNat cfgMax 100) ∧
    (applyHistory (mkMemoryManager V cfgMax) es).conversationHistory =
      lastN (jsOrNat cfgMax 100) (es.map (fun p => stampEntry p.1 p.2)) := by
  have hinit : (mkMemoryManager V cfgMax).conversationHistory.length ≤
      (mkMemoryManager V cfgMax).maxHistoryLength := by
    simp [mkMemoryManager]
  constructor
  · intro k
    have h := (applyHistory_conversationHistory (es.take k)
      (mkMemoryManager V cfgMax) hinit).1
    rw [h]
    simpa [mkMemoryManager] using length_lastN (jsOrNat cfgMax 100)
      ((mkMemoryManager V cfgMax).conversationHistory ++
        (es.take k).map (fun p => stampEntry p.1 p.2))
  · have h := (applyHistory_conversationHistory es (mkMemoryManager V cfgMax) hinit).1
    simpa [mkMemoryManager] using h

/-- C8: remembering the same value twice in succession emits exactly one
`memoryUpdated` event: the second call emits nothing, and the first call
emits the single event exactly when the value differs from the previously
stored one (comparison by the decidable equality standing in for `!==`;
an absent key reads as `undefined`, i.e. `none`). -/
theorem remember_twice_emits_once (V : Type) [DecidableEq V]
    (m : MemoryManager V) (key : String) (value : V) :
    (remember (remember m key value) key value).eventsLog =
      (remember m key value).eventsLog ∧
    (lookupA m.keyValueStore key ≠ some value →
      (remember m key value).eventsLog =
        m.eventsLog ++ [.memoryUpdated key value (lookupA m.keyValueStore key)]) ∧
    (lookupA m.keyValueStore key = some value →
      (remember m key value).eventsLog = m.eventsLog) := by
  refine ⟨?_, ?_, ?_⟩
  · simp [remember, lookupA_setA_self]
  · intro h
    simp [remember, h]
  · intro h
    simp [remember, h]

/-- C10: `getHistory(0)` is `slice(-0)`, i.e. `slice(0)`: the whole
conversation history, not the empty list; for `0 < n ≤ length`,
`getHistory(n)` is exactly the last `n` entries. -/
theorem getHistory_zero_is_full (V : Type) (m : MemoryManager V) :
    getHistory m 0 = m.conversationHistory ∧
    (∀ n : Nat, 0 < n → n ≤ m.conversationHistory.length →
      getHistory m n = lastN n m.conversationHistory ∧
      (getHistory m n).length = n) := by
  constructor
  · simp [getHistory, jsSlice]
  · intro n hpos hle
    have hneg : (-(n : Int)) < 0 := by omega
    have htoNat : ((m.conversationHistory.length : Int) + -(n : Int)).toNat =
        m.conversationHistory.length - n := by omega
    constructor
    · simp [getHistory, jsSlice, hneg, htoNat, lastN]
    · simp only [getHistory, jsSlice, if_pos hneg, htoNat, List.length_drop]
      omega

/-! ### EventEmitter lemmas -/

theorem invokeSync_wildcardEvents (beh : Nat → Except String Unit)
    (s : EventEmitter) (l : Listener) :
    (invokeSync beh s l).wildcardEvents = s.wildcardEvents := by
  unfold invokeSync
  cases beh l.lid with
  | ok u =>
    cases l.kind with
    | plain => rfl
    | onceWrapper en => simp [EventEmitter.off]
  | error e => rfl

theorem foldInvoke_snd (beh : Nat → Except String Unit) (ls : List Listener)
    (p : EventEmitter × List Nat) :
    (ls.foldl (fun (p : EventEmitter × List Nat) l =>
      (invokeSync beh p.1 l, p.2 ++ [l.lid])) p).2 =
      p.2 ++ ls.map (fun l => l.lid) := by
  induction ls generalizing p with
  | nil => simp
  | cons l rest ih => simp [List.foldl_cons, ih]

/-- The invoked identities of a synchronous `emit`: the exact-name
snapshot, then every matching wildcard array, independent of the
listeners' behaviour. -/
theorem emit_invoked (beh : Nat → Except String Unit) (s : EventEmitter)
    (name : String) :
    (EventEmitter.emit beh s name).2 =
      (scheduledListeners s name).map (fun l => l.lid) := by
  unfold EventEmitter.emit scheduledListeners
  rw [foldInvoke_snd, foldInvoke_snd]
  simp

theorem promiseAll_exceptOk (es : List (Except String Unit)) :
    exceptOk (promiseAll es) = es.all (fun e => exceptOk e) := by
  induction es with
  | nil => rfl
  | cons e rest ih =>
    cases e with
    | ok u =>
      rw [show promiseAll (Except.ok u :: rest) =
        (promiseAll rest).map (fun us => u :: us) from rfl]
      cases hr : promiseAll rest with
      | ok us =>
        rw [hr] at ih
        simp only [Except.map, List.all_cons]
        rw [← ih]
        rfl
      | error e2 =>
        rw [hr] at ih
        simp only [Except.map, List.all_cons]
        rw [← ih]
        rfl
    | error er => simp [promiseAll, exceptOk, List.all_cons]

theorem all_map_eq {α β : Type} (l : List α) (g : α → β) (p : β → Bool) :
    (l.map g).all p = l.all (fun x => p (g x)) := by
  induction l with
  | nil => rfl
  | cons x rest ih => simp [List.all_cons, ih]

theorem matchingWildcard_nil (name : String) : matchingWildcard [] name = [] := rfl

theorem matchingWildcard_cons (n : String) (ls : List Listener)
    (rest : Store) (name : String) :
    matchingWildcard ((n, ls) :: rest) name =
      (if wildcardMatches n name then ls else []) ++ matchingWildcard rest name := by
  simp only [matchingWildcard, List.filter_cons]
  by_cases hm : wildcardMatches n name <;> simp [hm]

theorem mem_storeLids_of_mem_getLs {st : Store} {name : String} {l : Listener}
    (h : l ∈ getLs st name) : l.lid ∈ storeLids st := by
  induction st with
  | nil => simp [getLs, lookupA] at h
  | cons e rest ih =>
    simp only [getLs, lookupA] at h
    by_cases he : e.1 = name
    · rw [if_pos he] at h
      simp only [Option.getD_some] at h
      simp only [storeLids, List.map_cons, List.flatten_cons, List.mem_append]
      exact Or.inl (List.mem_map_of_mem _ h)
    · rw [if_neg he] at h
      simp only [storeLids, List.map_cons, List.flatten_cons, List.mem_append]
      exact Or.inr (ih h)

theorem mem_storeLids_of_mem_matchingWildcard {ws : Store} {name : String}
    {lid : Nat} (h : lid ∈ (matchingWildcard ws name).map (fun l => l.lid)) :
    lid ∈ storeLids ws := by
  induction ws with
  | nil => simp [matchingWildcard] at h
  | cons e rest ih =>
    simp only [matchingWildcard, List.filter_cons] at h
    simp only [storeLids, List.map_cons, List.flatten_cons, List.mem_append]
    by_cases hm : wildcardMatches e.1 name
    · rw [if_pos hm] at h
      simp only [List.map_cons, List.flatten_cons, List.map_append,
        List.mem_append] at h
      cases h with
      | inl h => exact Or.inl h
      | inr h => exact Or.inr (ih h)
    · rw [if_neg hm] at h
      exact Or.inr (ih h)

theorem mem_matchingWildcard_addListener (ws : Store) (n : String)
    (l : Listener) (name : String) :
    l.lid ∈ (matchingWildcard (addListener ws n l) name).map (fun x => x.lid) ↔
      wildcardMatches n name = true ∨
        l.lid ∈ (matchingWildcard ws name).map (fun x => x.lid) := by
  induction ws with
  | nil =>
    rw [show addListener [] n l = [(n, [l])] from rfl, matchingWildcard_cons,
      matchingWildcard_nil]
    by_cases hm : wildcardMatches n name <;> simp [hm]
  | cons e rest ih =>
    obtain ⟨en, els⟩ := e
    by_cases he : en = n
    · subst he
      rw [show addListener ((en, els) :: rest) en l = (en, els ++ [l]) :: rest by
        simp [addListener], matchingWildcard_cons, matchingWildcard_cons]
      by_cases hm : wildcardMatches en name <;> simp [hm]
    · rw [show addListener ((en, els) :: rest) n l =
        (en, els) :: addListener rest n l by simp [addListener, he],
        matchingWildcard_cons, matchingWildcard_cons]
      by_cases hm : wildcardMatches en name
      · simp only [if_pos hm, List.map_append, List.mem_append, ih]
        tauto
      · simp only [if_neg hm, List.nil_append, ih]

/-! ### Claim theorems for the EventEmitter -/

/-- C7: subscribing a fresh listener to the wildcard name "mem*" makes
synchronous `emit` invoke it for every event name beginning with "mem" —
in particular `memoryUpdated` and `memoryCleared` — and never for
`historyUpdated`. -/
theorem wildcard_mem_subscription (s : EventEmitter)
    (beh : Nat → Except String Unit) (lid : Nat)
    (h1 : lid ∉ storeLids s.events) (h2 : lid ∉ storeLids s.wildcardEvents) :
    lid ∈ (EventEmitter.emit beh (s.on "mem*" ⟨lid, .plain⟩) "memoryUpdated").2 ∧
    lid ∈ (EventEmitter.emit beh (s.on "mem*" ⟨lid, .plain⟩) "memoryCleared").2 ∧
    (∀ name : String, jsStartsWith name "mem" = true →
      lid ∈ (EventEmitter.emit beh (s.on "mem*" ⟨lid, .plain⟩) name).2) ∧
    lid ∉ (EventEmitter.emit beh (s.on "mem*" ⟨lid, .plain⟩) "historyUpdated").2 := by
  have hs' : s.on "mem*" ⟨lid, .plain⟩ =
      { s with wildcardEvents := addListener s.wildcardEvents "mem*" ⟨lid, .plain⟩ } := by
    rw [EventEmitter.on, if_pos (by decide)]
  have hmain : ∀ name : String, jsStartsWith name "mem" = true →
      lid ∈ (EventEmitter.emit beh (s.on "mem*" ⟨lid, .plain⟩) name).2 := by
    intro name hpre
    rw [hs', emit_invoked]
    simp only [scheduledListeners, List.map_append, List.mem_append]
    right
    have hmatch : wildcardMatches "mem*" name = true := by
      have hdrop : jsDropLast "mem*" = "mem" := by decide
      simp [wildcardMatches, hdrop, hpre]
      decide
    exact (mem_matchingWildcard_addListener s.wildcardEvents "mem*"
      ⟨lid, .plain⟩ name).mpr (Or.inl hmatch)
  refine ⟨hmain "memoryUpdated" (by decide), hmain "memoryCleared" (by decide),
    hmain, ?_⟩
  rw [hs', emit_invoked]
  simp only [scheduledListeners, List.map_append, List.mem_append]
  rintro (hin | hin)
  · exact h1 (by
      obtain ⟨l, hl, hlid⟩ := List.mem_map.mp hin
      exact hlid ▸ mem_storeLids_of_mem_getLs hl)
  · have hnm : wildcardMatches "mem*" "historyUpdated" = false := by decide
    have := (mem_matchingWildcard_addListener s.wildcardEvents "mem*"
      ⟨lid, .plain⟩ "historyUpdated").mp hin
    rcases this with hbad | hold
    · rw [hnm] at hbad
      exact Bool.false_ne_true hbad
    · exact h2 (mem_storeLids_of_mem_matchingWildcard hold)

/-- C7 witness: on the empty emitter, listener 0 subscribed to "mem*" is
invoked by emits of `memoryUpdated` and `memoryCleared` and not by
`historyUpdated`. -/
theorem wildcard_mem_subscription_witness :
    0 ∈ (EventEmitter.emit behAllOk
      (mkEventEmitter.on "mem*" ⟨0, .plain⟩) "memoryUpdated").2 ∧
    0 ∈ (EventEmitter.emit behAllOk
      (mkEventEmitter.on "mem*" ⟨0, .plain⟩) "memoryCleared").2 ∧
    0 ∉ (EventEmitter.emit behAllOk
      (mkEventEmitter.on "mem*" ⟨0, .plain⟩) "historyUpdated").2 := by
  have h := wildcard_mem_subscription mkEventEmitter behAllOk 0
    (by simp [mkEventEmitter, storeLids]) (by simp [mkEventEmitter, storeLids])
  exact ⟨h.1, h.2.1, h.2.2.2⟩

/-- C5 counterexample: with listeners 0 (throws) and 1 (succeeds) both
subscribed to "evt", both listeners run, yet the promise `emitAsync`
returns rejects with the first failure instead of resolving — `Promise.all`
semantics, refuting the claim that one rejecting listener does not prevent
the returned promise from resolving. -/
theorem emitAsync_rejects_on_listener_failure :
    (EventEmitter.emitAsync behFailZero twoListenerEmitter "evt").2.1 = [0, 1] ∧
    (EventEmitter.emitAsync behFailZero twoListenerEmitter "evt").2.2 =
      .error "boom" := by
  constructor <;> rfl

/-- C5 as amended: `emitAsync` schedules exactly the listener set that
synchronous `emit` runs, in the same order; every listener is scheduled
and runs to settlement whatever any listener's outcome (the scheduled set
does not depend on the behaviour); and the returned promise follows
`Promise.all`: it resolves exactly when every listener succeeded, and
rejects with the first failure otherwise. -/
theorem emitAsync_same_listeners_promise_all (s : EventEmitter) (name : String)
    (beh beh' : Nat → Except String Unit) :
    (EventEmitter.emitAsync beh s name).2.1 = (EventEmitter.emit beh s name).2 ∧
    (EventEmitter.emitAsync beh s name).2.1 =
      (EventEmitter.emitAsync beh' s name).2.1 ∧
    exceptOk (EventEmitter.emitAsync beh s name).2.2 =
      (EventEmitter.emitAsync beh s name).2.1.all (fun lid => exceptOk (beh lid)) := by
  refine ⟨?_, ?_, ?_⟩
  · rw [emit_invoked]
    rfl
  · rfl
  · simp only [EventEmitter.emitAsync, promiseAll_exceptOk, all_map_eq]

/-- C9, evaluated at the failing input: a listener registered via
`once("mem*", l)` lands in the wildcard store, but the `onceWrapper`
unsubscribes with `off(eventName, wrapper)` whose `isWildcard` parameter
defaults to `false`, searching `this.events` instead of
`this.wildcardEvents`. The wrapper therefore stays registered: emitting
`memoryUpdated` and then `memoryCleared` invokes listener 0 both times,
and the emitter still holds the wrapper afterwards — contradicting the
documented "called only once". -/
theorem once_wildcard_listener_invoked_twice :
    (EventEmitter.emit behAllOk onceWildcardEmitter "memoryUpdated").2 = [0] ∧
    (EventEmitter.emit behAllOk
      (EventEmitter.emit behAllOk onceWildcardEmitter "memoryUpdated").1
      "memoryCleared").2 = [0] ∧
    (EventEmitter.emit behAllOk
      (EventEmitter.emit behAllOk onceWildcardEmitter "memoryUpdated").1
      "memoryCleared").1.wildcardEvents =
      [("mem*", [⟨0, .onceWrapper "mem*"⟩])] := by
  refine ⟨rfl, rfl, rfl⟩

/-! ### ToolHandler lemmas and claim theorems -/

theorem executeWithRetry_all_fail (th : ToolHandler) (fn : Nat → Except String String)
    (e : Nat → String) (hf : ∀ n, fn n = .error (e n)) :
    ∀ (k a : Nat), th.retryAttempts = a + k →
      executeWithRetry th fn a =
        ⟨.error (e th.retryAttempts), k + 1,
          (List.range' a k).map (fun i => th.retryDelay * i)⟩ := by
  intro k
  induction k with
  | zero =>
    intro a ha
    have hnlt : ¬ a < th.retryAttempts := by omega
    rw [executeWithRetry, hf a]
    simp only [dif_neg hnlt, List.range', List.map_nil]
    have : th.retryAttempts = a := by omega
    rw [this]
  | succ k ih =>
    intro a ha
    have hlt : a < th.retryAttempts := by omega
    have hrec := ih (a + 1) (by omega)
    rw [executeWithRetry, hf a]
    simp only [dif_pos hlt, hrec, List.range', List.map_cons]

/-- C3: a tool function that throws on every invocation is invoked exactly
`retryAttempts` times, the wait scheduled between attempt i and attempt
i+1 is `retryDelay * i` (linear backoff, i = 1 .. retryAttempts-1), and
the last attempt's error is re-raised, so the batch entry produced by
`handleToolCalls` for that call is an error entry. -/
theorem tool_retry_linear_backoff (th : ToolHandler)
    (tools : List (String × Tool)) (name args : String)
    (callFn : String → Nat → Except String String) (e : Nat → String)
    (hra : 1 ≤ th.retryAttempts)
    (hreg : lookupA tools name = some ⟨some callFn⟩)
    (hf : ∀ n, callFn args n = .error (e n)) :
    (executeWithRetry th (callFn args) 1).invocations = th.retryAttempts ∧
    (executeWithRetry th (callFn args) 1).delays =
      (List.range' 1 (th.retryAttempts - 1)).map (fun i => th.retryDelay * i) ∧
    (executeWithRetry th (callFn args) 1).result = .error (e th.retryAttempts) ∧
    handleToolCalls th [⟨⟨name, args⟩⟩] tools =
      [⟨name, none, some (e th.retryAttempts)⟩] := by
  have hmain := executeWithRetry_all_fail th (callFn args) e hf
    (th.retryAttempts - 1) 1 (by omega)
  refine ⟨?_, ?_, ?_, ?_⟩
  · rw [hmain]
    show th.retryAttempts - 1 + 1 = th.retryAttempts
    omega
  · rw [hmain]
  · rw [hmain]
  · simp only [handleToolCalls, processCall, hreg, hmain]

/-- C3 witness: with the default configuration (3 attempts, delay 1000)
and a tool that always throws, the tool runs 3 times, the waits are
1000 and 2000, and the batch entry is the error entry. -/
theorem tool_retry_linear_backoff_witness :
    (executeWithRetry (mkToolHandler none none) (alwaysFailCall "x") 1).invocations = 3 ∧
    (executeWithRetry (mkToolHandler none none) (alwaysFailCall "x") 1).delays =
      [1000, 2000] ∧
    handleToolCalls (mkToolHandler none none) [⟨⟨"t", "x"⟩⟩] failRegistry =
      [⟨"t", none, some "always"⟩] := by
  have h := tool_retry_linear_backoff (mkToolHandler none none) failRegistry
    "t" "x" alwaysFailCall (fun _ => "always") (by decide) rfl (fun _ => rfl)
  refine ⟨h.1, ?_, h.2.2.2⟩
  rw [h.2.1]
  rfl

/-- C4: `handleToolCalls` returns one entry per call, in the original call
order, and each entry is a function of its own call alone (so one call's
permanent failure or missing tool cannot affect the entries of the other
calls); every entry carries the call's tool name and exactly one of
`result`/`error`; a call naming a missing or non-callable tool yields the
error entry and the batch continues. -/
theorem handleToolCalls_batch_isolation (th : ToolHandler)
    (tools : List (String × Tool)) (toolCalls : List ToolCall) :
    handleToolCalls th toolCalls tools = toolCalls.map (processCall th tools) ∧
    (handleToolCalls th toolCalls tools).length = toolCalls.length ∧
    (∀ c : ToolCall, (processCall th tools c).toolName = c.function.name) ∧
    (∀ c : ToolCall,
      (processCall th tools c).result.isSome = (processCall th tools c).error.isNone) ∧
    (∀ c : ToolCall, toolIsCallable tools c.function.name = false →
      processCall th tools c =
        ⟨c.function.name, none, some (notCallableMsg c.function.name)⟩) := by
  have hmap : handleToolCalls th toolCalls tools =
      toolCalls.map (processCall th tools) := by
    induction toolCalls with
    | nil => rfl
    | cons c rest ih => simp [handleToolCalls, ih]
  have hone : ∀ c : ToolCall, (processCall th tools c).toolName = c.function.name ∧
      (processCall th tools c).result.isSome = (processCall th tools c).error.isNone ∧
      (toolIsCallable tools c.function.name = false →
        processCall th tools c =
          ⟨c.function.name, none, some (notCallableMsg c.function.name)⟩) := by
    intro c
    unfold processCall toolIsCallable
    cases hl : lookupA tools c.function.name with
    | none => simp
    | some tool =>
      cases hc : tool.call with
      | none => simp [hc]
      | some callFn =>
        cases hr : (executeWithRetry th (callFn c.function.args) 1).result with
        | ok v => simp [hc, hr]
        | error er => simp [hc, hr]
  exact ⟨hmap, by rw [hmap, List.length_map], fun c => (hone c).1,
    fun c => (hone c).2.1, fun c => (hone c).2.2⟩

/-! ### Agent lemmas and claim theorems -/

theorem addToHistory_append_of_lt {V : Type} (m : MemoryManager V)
    (e : MemEntry) (now : Nat)
    (h : m.conversationHistory.length < m.maxHistoryLength) :
    (addToHistory m e now).conversationHistory =
      m.conversationHistory ++ [stampEntry e now] := by
  have : ¬ (m.conversationHistory ++ [stampEntry e now]).length > m.maxHistoryLength := by
    simp only [List.length_append, List.length_cons, List.length_nil]
    omega
  simp only [addToHistory, if_neg this]

/-- C1: with a first response free of function-call parts, `run` sends the
model exactly one request, appends exactly one (input, response,
timestamp) entry to the history, ends idle and returns the processed text
of that response; with function-call parts in the first candidate, `run`
sends exactly two requests, the second carrying the original messages,
the model's tool-call turn, and a function-response turn with each tool's
result or error, and returns the processed text of the second response. -/
theorem agent_run_round_trip (provider : Nat → LLMRequest → Except String LLMResponse)
    (a : AgentState) (input : String) (now : Nat) (r1 : LLMResponse)
    (h1 : provider 0 (firstRequest a input) = .ok r1)
    (hroom : a.memory.conversationHistory.length < a.memory.maxHistoryLength) :
    (toolCallsPartsOf r1 = [] →
      (Agent.run provider a input now).calls = [firstRequest a input] ∧
      (Agent.run provider a input now).result = .ok (defaultResponseProcessor r1) ∧
      (Agent.run provider a input now).agent.memory.conversationHistory =
        a.memory.conversationHistory ++ [⟨input, defaultResponseProcessor r1, now⟩] ∧
      (Agent.run provider a input now).agent.status = "idle") ∧
    (∀ r2 : LLMResponse, toolCallsPartsOf r1 ≠ [] →
      provider 1 (secondRequest a input r1) = .ok r2 →
      (Agent.run provider a input now).calls =
        [firstRequest a input, secondRequest a input r1] ∧
      (secondRequest a input r1).contents =
        defaultInputFormatter input ++
          [⟨"model", toolCallsPartsOf r1⟩,
           ⟨"function", functionResponseParts (toolResultsOf a r1)⟩] ∧
      (Agent.run provider a input now).result = .ok (defaultResponseProcessor r2) ∧
      (Agent.run provider a input now).agent.memory.conversationHistory =
        a.memory.conversationHistory ++ [⟨input, defaultResponseProcessor r2, now⟩] ∧
      (Agent.run provider a input now).agent.status = "idle") := by
  constructor
  · intro hempty
    have hcond : ¬ (toolCallsPartsOf r1).length > 0 := by simp [hempty]
    simp only [Agent.run, h1, if_neg hcond]
    refine ⟨by trivial, by trivial, ?_, by trivial⟩
    simp only [emitA, setStatus]
    rw [addToHistory_append_of_lt _ _ _ (by simpa [emitA, setStatus] using hroom)]
    rfl
  · intro r2 hne h2
    have hcond : (toolCallsPartsOf r1).length > 0 := by
      cases hc : toolCallsPartsOf r1 with
      | nil => exact absurd hc hne
      | cons p rest => simp
    simp only [Agent.run, h1, if_pos hcond, h2]
    refine ⟨by trivial, by trivial, by trivial, ?_, by trivial⟩
    simp only [emitA, setStatus]
    rw [addToHistory_append_of_lt _ _ _ (by simpa [emitA, setStatus] using hroom)]
    rfl

/-- C1 witness: a toolless agent answered with plain text makes one model
call, returns the processed text and appends the one history entry; an
agent whose first response carries a function call makes exactly two model
calls and returns the second response's text. -/
theorem agent_run_round_trip_witness :
    (Agent.run providerText agentW "q" 5).result = .ok "hi" ∧
    (Agent.run providerText agentW "q" 5).agent.memory.conversationHistory =
      [⟨"q", "hi", 5⟩] ∧
    (Agent.run providerText agentW "q" 5).calls = [firstRequest agentW "q"] ∧
    (Agent.run providerTwo agentTools "q" 7).result = .ok "final" ∧
    (Agent.run providerTwo agentTools "q" 7).calls =
      [firstRequest agentTools "q", secondRequest agentTools "q" respToolCall] := by
  have ha := agent_run_round_trip providerText agentW "q" 5 respText rfl (by decide)
  have ha0 := ha.1 rfl
  have hb := agent_run_round_trip providerTwo agentTools "q" 7 respToolCall rfl
    (by decide)
  have hb0 := hb.2 respFinal (by decide) rfl
  exact ⟨ha0.2.1, ha0.2.2.1, ha0.1, hb0.2.2.1, hb0.1⟩

/-- C6: when a model call throws, `run` sets the status to error, emits
`runError` carrying the agent id, the input and the error, re-raises the
same error to the caller, and does not retry the model call (exactly the
requests already sent appear in the call list: one for a first-call
failure, two for a second-call failure). -/
theorem agent_run_error_propagation
    (provider : Nat → LLMRequest → Except String LLMResponse)
    (a : AgentState) (input : String) (now : Nat) (e : String) :
    (provider 0 (firstRequest a input) = .error e →
      (Agent.run provider a input now).result = .error e ∧
      (Agent.run provider a input now).agent.status = "error" ∧
      AgentEvent.runError a.id input e ∈ (Agent.run provider a input now).agent.eventsLog ∧
      (Agent.run provider a input now).calls = [firstRequest a input]) ∧
    (∀ r1 : LLMResponse, provider 0 (firstRequest a input) = .ok r1 →
      toolCallsPartsOf r1 ≠ [] →
      provider 1 (secondRequest a input r1) = .error e →
      (Agent.run provider a input now).result = .error e ∧
      (Agent.run provider a input now).agent.status = "error" ∧
      AgentEvent.runError a.id input e ∈ (Agent.run provider a input now).agent.eventsLog ∧
      (Agent.run provider a input now).calls =
        [firstRequest a input, secondRequest a input r1]) := by
  constructor
  · intro h1
    simp only [Agent.run, h1]
    refine ⟨by trivial, by trivial, ?_, by trivial⟩
    simp [emitA, setStatus]
  · intro r1 h1 hne h2
    have hcond : (toolCallsPartsOf r1).length > 0 := by
      cases hc : toolCallsPartsOf r1 with
      | nil => exact absurd hc hne
      | cons p rest => simp
    simp only [Agent.run, h1, if_pos hcond, h2]
    refine ⟨by trivial, by trivial, ?_, by trivial⟩
    simp [emitA, setStatus]

end Spec2Proof
